import Mathlib

/-!
Verification development for the `scraper` crawler.

Strings are modelled as lists of characters (`Str`), at the byte/ASCII level:
the inputs the crawler handles are URLs and HTTP header values, which are
ASCII.  The crawler (src/scraper/crawler.py, src/scraper/utils.py) delegates
URL manipulation to CPython's `urllib.parse` and robots handling to CPython's
`urllib.robotparser`; those library functions are embedded here from their
CPython 3.11 sources, since the repository's behaviour is defined in terms of
them.  Percent-decoding is modelled byte-wise (a `%XX` escape becomes the
character with that code), which agrees with CPython on ASCII data.
-/

abbrev Str := List Char

def chars (s : String) : Str := s.toList

def lowerStr (s : Str) : Str := s.map Char.toLower

/-- Characters stripped by Python `str.strip()` (ASCII whitespace). -/
def isSpaceChar (c : Char) : Bool :=
  c == ' ' || c == '\t' || c == '\n' || c == '\r' || c == '\x0b' || c == '\x0c'

def trim (s : Str) : Str :=
  ((s.dropWhile isSpaceChar).reverse.dropWhile isSpaceChar).reverse

/-- Split at the first occurrence of `c`, like Python `s.split(c, 1)` when
`c` occurs; `none` when it does not occur. -/
def splitFirst (c : Char) : Str → Option (Str × Str)
  | [] => none
  | a :: as =>
    if a = c then some ([], as)
    else match splitFirst c as with
      | some p => some (a :: p.1, p.2)
      | none => none

/-- Python `s.split(c)`: total split; on the empty string yields `[""]`. -/
def splitAll (c : Char) : Str → List Str
  | [] => [[]]
  | a :: as =>
    let r := splitAll c as
    if a = c then [] :: r
    else match r with
      | h :: t => (a :: h) :: t
      | [] => [[a]]

/-- First index of `c` at position `≥ base` (used for Python `find`). -/
def idxOfAux (c : Char) : Str → Nat → Option Nat
  | [], _ => none
  | a :: as, i => if a = c then some i else idxOfAux c as (i + 1)

def idxOf? (c : Char) (s : Str) : Option Nat := idxOfAux c s 0

/-- Python `s.rfind(c)` (index of last occurrence), assuming `c ∈ s`. -/
def lastIdxOf (c : Char) (s : Str) : Nat :=
  match idxOf? c s.reverse with
  | some i => s.length - 1 - i
  | none => 0

/-- Python `s.find(c, start)`. -/
def idxFrom? (c : Char) (s : Str) (start : Nat) : Option Nat :=
  idxOfAux c (s.drop start) start

/-- Python substring test `pat in s` (Bool). -/
def isSubstr (pat : Str) : Str → Bool
  | [] => pat.isEmpty
  | c :: cs => pat.isPrefixOf (c :: cs) || isSubstr pat cs

/-! ## Embedding of CPython 3.11 `urllib.parse` (ASCII fragment) -/

/-- `urllib.parse.uses_relative`. -/
def usesRelative : List Str :=
  [chars "", chars "ftp", chars "http", chars "gopher", chars "nntp",
   chars "imap", chars "wais", chars "file", chars "https", chars "shttp",
   chars "mms", chars "prospero", chars "rtsp", chars "rtsps", chars "rtspu",
   chars "sftp", chars "svn", chars "svn+ssh", chars "ws", chars "wss"]

/-- `urllib.parse.uses_netloc`. -/
def usesNetloc : List Str :=
  [chars "", chars "ftp", chars "http", chars "gopher", chars "nntp",
   chars "telnet", chars "imap", chars "wais", chars "file", chars "mms",
   chars "https", chars "shttp", chars "snews", chars "prospero",
   chars "rtsp", chars "rtsps", chars "rtspu", chars "rsync", chars "svn",
   chars "svn+ssh", chars "sftp", chars "nfs", chars "git", chars "git+ssh",
   chars "ws", chars "wss"]

/-- `urllib.parse.uses_params`. -/
def usesParams : List Str :=
  [chars "", chars "ftp", chars "hdl", chars "prospero", chars "http",
   chars "imap", chars "https", chars "shttp", chars "rtsp", chars "rtsps",
   chars "rtspu", chars "sip", chars "sips", chars "mms", chars "sftp",
   chars "tel"]

/-- `urllib.parse.scheme_chars`. -/
def schemeChars : Str :=
  chars "abcdefghijklmnopqrstuvwxyzABCDEFGHIJKLMNOPQRSTUVWXYZ0123456789+-."

/-- WHATWG leading-strip plus removal of tab/CR/LF, as done at the top of
`urlsplit` for the url argument. -/
def cleanUrl (s : Str) : Str :=
  (s.dropWhile (fun c => decide (c.toNat ≤ 32))).filter
    (fun c => !(c == '\t' || c == '\r' || c == '\n'))

/-- The same treatment applied to the `scheme` (default) argument of
`urlsplit`: strip on both ends, then remove tab/CR/LF. -/
def cleanScheme (s : Str) : Str :=
  ((((s.dropWhile (fun c => decide (c.toNat ≤ 32))).reverse).dropWhile
      (fun c => decide (c.toNat ≤ 32))).reverse).filter
    (fun c => !(c == '\t' || c == '\r' || c == '\n'))

/-- Scheme extraction step of `urlsplit`: `i = url.find(':')`, and the prefix
before it must be nonempty, start with an ASCII letter, and consist of
`scheme_chars` only; on success the scheme is lowercased. -/
def extractScheme (url : Str) : Option (Str × Str) :=
  match splitFirst ':' url with
  | none => none
  | some (pre, rest) =>
    match pre with
    | [] => none
    | c0 :: _ =>
      if c0.toNat ≤ 127 ∧ c0.isAlpha ∧ pre.all (fun c => decide (c ∈ schemeChars))
      then some (lowerStr pre, rest)
      else none

/-- `urllib.parse._splitnetloc(url, 2)` applied to `url.drop 2`: the netloc
runs until the first of `/`, `?`, `#`. -/
def splitNetloc (s : Str) : Str × Str :=
  (s.takeWhile (fun c => !(c == '/' || c == '?' || c == '#')),
   s.dropWhile (fun c => !(c == '/' || c == '?' || c == '#')))

structure SplitResult where
  scheme : Str
  netloc : Str
  path : Str
  query : Str
  fragment : Str
deriving DecidableEq

structure ParseResult where
  scheme : Str
  netloc : Str
  path : Str
  params : Str
  query : Str
  fragment : Str
deriving DecidableEq

/-- `urllib.parse.urlsplit(url, scheme)` with `allow_fragments=True` (the only
mode the crawler uses).  The IPv6-bracket and netloc validation `raise` paths
are not modelled (they reject malformed bracketed hosts, which never arise in
this development). -/
def urlsplit (url dflt : Str) : SplitResult :=
  let url1 := cleanUrl url
  let d := cleanScheme dflt
  let sr := match extractScheme url1 with
    | some p => p
    | none => (d, url1)
  let scheme := sr.1
  let rest := sr.2
  let nl := if rest.take 2 = ['/', '/'] then splitNetloc (rest.drop 2) else ([], rest)
  let netloc := nl.1
  let rest2 := nl.2
  let fr := match splitFirst '#' rest2 with
    | some p => p
    | none => (rest2, [])
  let rest3 := fr.1
  let fragment := fr.2
  let pq := match splitFirst '?' rest3 with
    | some p => p
    | none => (rest3, [])
  ⟨scheme, netloc, pq.1, pq.2, fragment⟩

/-- `urllib.parse._splitparams`. -/
def splitParams (url : Str) : Str × Str :=
  if '/' ∈ url then
    match idxFrom? ';' url (lastIdxOf '/' url) with
    | none => (url, [])
    | some i => (url.take i, url.drop (i + 1))
  else
    match idxOf? ';' url with
    | none => (url, [])
    | some i => (url.take i, url.drop (i + 1))

/-- `urllib.parse.urlparse(url, scheme)` with `allow_fragments=True`. -/
def urlparse (url dflt : Str) : ParseResult :=
  let s := urlsplit url dflt
  if s.scheme ∈ usesParams ∧ ';' ∈ s.path then
    let pr := splitParams s.path
    ⟨s.scheme, s.netloc, pr.1, pr.2, s.query, s.fragment⟩
  else ⟨s.scheme, s.netloc, s.path, [], s.query, s.fragment⟩

/-- The netloc-joining step of `urlunsplit` (CPython 3.11 condition). -/
def netlocPart (s : SplitResult) : Str :=
  if s.netloc ≠ [] ∨ (s.scheme ≠ [] ∧ s.scheme ∈ usesNetloc ∧ s.path.take 2 ≠ ['/', '/'])
  then
    '/' :: '/' :: (s.netloc ++
      (if s.path ≠ [] ∧ s.path.take 1 ≠ ['/'] then '/' :: s.path else s.path))
  else s.path

/-- The query/fragment-appending tail of `urlunsplit`. -/
def addQueryFragment (url : Str) (s : SplitResult) : Str :=
  let u1 := if s.query ≠ [] then url ++ '?' :: s.query else url
  if s.fragment ≠ [] then u1 ++ '#' :: s.fragment else u1

/-- `urllib.parse.urlunsplit` (CPython 3.11). -/
def urlunsplit (s : SplitResult) : Str :=
  addQueryFragment
    (if s.scheme ≠ [] then s.scheme ++ ':' :: netlocPart s else netlocPart s) s

/-- `urllib.parse.urlunparse`. -/
def urlunparse (p : ParseResult) : Str :=
  let url := if p.params ≠ [] then p.path ++ ';' :: p.params else p.path
  urlunsplit ⟨p.scheme, p.netloc, url, p.query, p.fragment⟩

/-- `segments[1:-1] = filter(None, segments[1:-1])` from `urljoin`. -/
def sliceFilter (l : List Str) : List Str :=
  match l with
  | [] => []
  | [x] => [x]
  | x :: rest =>
    match rest.getLast? with
    | some last => x :: ((rest.dropLast.filter (fun s => !s.isEmpty)) ++ [last])
    | none => x :: rest

/-- The `..`/`.` resolution loop of `urljoin` (`pop` on the empty list is
ignored, matching the swallowed `IndexError`). -/
def resolveSegments (segments : List Str) : List Str :=
  segments.foldl
    (fun acc seg =>
      if seg = chars ".." then acc.dropLast
      else if seg = chars "." then acc
      else acc ++ [seg]) []

/-- `urllib.parse.urljoin`. -/
def urljoin (base url : Str) : Str :=
  if base = [] then url
  else if url = [] then base
  else
    let b := urlparse base []
    let u := urlparse url b.scheme
    if u.scheme ≠ b.scheme ∨ u.scheme ∉ usesRelative then url
    else if u.scheme ∈ usesNetloc ∧ u.netloc ≠ [] then urlunparse u
    else
      let netloc := if u.scheme ∈ usesNetloc then b.netloc else u.netloc
      if u.path = [] ∧ u.params = [] then
        let q := if u.query = [] then b.query else u.query
        urlunparse ⟨u.scheme, netloc, b.path, b.params, q, u.fragment⟩
      else
        let baseParts := splitAll '/' b.path
        let baseParts := if baseParts.getLast? ≠ some [] then baseParts.dropLast else baseParts
        let segs := if u.path.take 1 = ['/'] then splitAll '/' u.path
          else sliceFilter (baseParts ++ splitAll '/' u.path)
        let resolved := resolveSegments segs
        let resolved :=
          if segs.getLast? = some (chars ".") ∨ segs.getLast? = some (chars "..")
          then resolved ++ [[]] else resolved
        let joined := List.intercalate ['/'] resolved
        urlunparse ⟨u.scheme, netloc, (if joined = [] then ['/'] else joined),
                    u.params, u.query, u.fragment⟩

def isHexDigit (c : Char) : Bool :=
  ('0' ≤ c && c ≤ '9') || ('a' ≤ c && c ≤ 'f') || ('A' ≤ c && c ≤ 'F')

def hexVal (c : Char) : Nat :=
  if '0' ≤ c ∧ c ≤ '9' then c.toNat - 48
  else if 'a' ≤ c ∧ c ≤ 'f' then c.toNat - 87
  else c.toNat - 55

/-- `urllib.parse.unquote`, byte-wise: each valid `%XX` escape becomes the
character of that code; invalid escapes are kept literally.  (CPython decodes
escape runs as UTF-8; on ASCII data the two agree.) -/
def unquote : Str → Str
  | [] => []
  | '%' :: a :: b :: rest =>
    if isHexDigit a ∧ isHexDigit b
    then Char.ofNat (16 * hexVal a + hexVal b) :: unquote rest
    else '%' :: unquote (a :: b :: rest)
  | c :: rest => c :: unquote rest

/-- `urllib.parse._ALWAYS_SAFE`. -/
def alwaysSafe : Str :=
  chars "ABCDEFGHIJKLMNOPQRSTUVWXYZabcdefghijklmnopqrstuvwxyz0123456789_.-~"

def hexDigitU (n : Nat) : Char :=
  if n < 10 then Char.ofNat (48 + n) else Char.ofNat (55 + n)

def percentEncode (c : Char) : Str :=
  ['%', hexDigitU (c.toNat / 16 % 16), hexDigitU (c.toNat % 16)]

/-- `urllib.parse.quote(s, safe)`, byte-wise over the character codes. -/
def quote (s safe : Str) : Str :=
  (s.map (fun c => if c ∈ alwaysSafe ∨ c ∈ safe then [c] else percentEncode c)).flatten

/-- `urllib.parse.quote_plus(s, safe)`. -/
def quotePlus (s safe : Str) : Str :=
  if ' ' ∈ s then
    (quote s (safe ++ [' '])).map (fun c => if c = ' ' then '+' else c)
  else quote s safe

def plusToSpace (s : Str) : Str := s.map (fun c => if c = '+' then ' ' else c)

/-- `urllib.parse.parse_qsl(qs, keep_blank_values=keepBlank)` with the default
`&` separator. -/
def parse_qsl (qs : Str) (keepBlank : Bool) : List (Str × Str) :=
  if qs = [] then []
  else
    (splitAll '&' qs).foldr
      (fun nv acc =>
        if nv = [] then acc
        else match splitFirst '=' nv with
          | some p =>
            if p.2 ≠ [] ∨ keepBlank = true then
              (unquote (plusToSpace p.1), unquote (plusToSpace p.2)) :: acc
            else acc
          | none =>
            if keepBlank = true then (unquote (plusToSpace nv), []) :: acc
            else acc) []

/-- `urllib.parse.urlencode` on a list of pairs (`quote_via=quote_plus`,
`safe=''`). -/
def urlencode (pairs : List (Str × Str)) : Str :=
  List.intercalate ['&'] (pairs.map (fun p => quotePlus p.1 [] ++ '=' :: quotePlus p.2 []))

/-! ## Embedding of src/scraper/utils.py (the parts the claims use) -/

/-- `TRACKING_PARAMS` from src/scraper/utils.py. -/
def TRACKING_PARAMS : List Str :=
  [chars "utm_source", chars "utm_medium", chars "utm_campaign",
   chars "utm_term", chars "utm_content", chars "gclid", chars "fbclid",
   chars "mc_eid"]

/-- The query rewrite performed by `strip_fragment_and_tracking`:
`urlencode([(k, v) for k, v in parse_qsl(q, keep_blank_values=True)
            if k.lower() not in TRACKING_PARAMS])`. -/
def stripQuery (q : Str) : Str :=
  urlencode ((parse_qsl q true).filter (fun kv => decide (lowerStr kv.1 ∉ TRACKING_PARAMS)))

/-- `strip_fragment_and_tracking` from src/scraper/utils.py. -/
def strip_fragment_and_tracking (url : Str) : Str :=
  let p := urlparse url []
  urlunparse ⟨p.scheme, p.netloc, p.path, p.params, stripQuery p.query, []⟩

/-- Case-insensitive prefix test: the model of
`re.match(pat, s, re.I)` for a literal lowercase pattern `pat`. -/
def ciPrefix : Str → Str → Bool
  | [], _ => true
  | _ :: _, [] => false
  | p :: ps, c :: cs => (p == Char.toLower c) && ciPrefix ps cs

/-- The scheme rejection of `normalize_url`:
`re.match(r"^(javascript:|mailto:|tel:)", href, re.I)`. -/
def badSchemeRef (href : Str) : Bool :=
  ciPrefix (chars "javascript:") href || ciPrefix (chars "mailto:") href ||
    ciPrefix (chars "tel:") href

/-- `normalize_url` from src/scraper/utils.py. -/
def normalize_url (base href : Str) : Option Str :=
  if href = [] then none
  else if badSchemeRef href = true then none
  else some (strip_fragment_and_tracking (urljoin base href))

/-- `is_allowed_domain` from src/scraper/utils.py. -/
def is_allowed_domain (url : Str) (allowedDomains : List Str) : Bool :=
  if allowedDomains = [] then true
  else
    let netloc := lowerStr (urlparse url []).netloc
    allowedDomains.any (fun dom =>
      let d := (lowerStr dom).dropWhile (fun c => c == '.')
      netloc == d || (('.' :: d).isSuffixOf netloc))

/-! ## Embedding of CPython 3.11 `urllib.robotparser`
(`RobotFileParser`, as used by `AsyncCrawler._robots_allows`).
`last_checked` is modelled as a flag (`lastChecked`): the crawler only ever
compares it with zero, via `if not self.last_checked`. -/

structure RuleLine where
  path : Str
  allowance : Bool
deriving DecidableEq

/-- `RuleLine.__init__`: an empty `Disallow:` value means allow-all, and the
path is re-serialized and quoted. -/
def mkRuleLine (path : Str) (allowance : Bool) : RuleLine :=
  let allowance := if path = [] ∧ allowance = false then true else allowance
  ⟨quote (urlunparse (urlparse path [])) ['/'], allowance⟩

def RuleLine.appliesTo (r : RuleLine) (filename : Str) : Bool :=
  r.path == ['*'] || r.path.isPrefixOf filename

structure REntry where
  useragents : List Str
  rulelines : List RuleLine
deriving DecidableEq

/-- `Entry.applies_to`: the checked agent is the part before `/`, lowercased;
an entry matches on the literal `*` agent or on a substring match. -/
def REntry.appliesTo (e : REntry) (useragent : Str) : Bool :=
  let ua := lowerStr ((splitAll '/' useragent).headD [])
  e.useragents.any (fun agent => agent == ['*'] || isSubstr (lowerStr agent) ua)

/-- `Entry.allowance`: first matching rule line wins; no match means allowed. -/
def REntry.allowance (e : REntry) (filename : Str) : Bool :=
  match e.rulelines.find? (fun line => line.appliesTo filename) with
  | some line => line.allowance
  | none => true

structure RobotFileParser where
  entries : List REntry
  defaultEntry : Option REntry
  sitemaps : List Str
  disallowAll : Bool
  allowAll : Bool
  lastChecked : Bool
deriving DecidableEq

/-- `RobotFileParser()` freshly constructed: both flags false, never read. -/
def emptyRobots : RobotFileParser := ⟨[], none, [], false, false, false⟩

/-- `RobotFileParser._add_entry`. -/
def addEntry (rp : RobotFileParser) (entry : REntry) : RobotFileParser :=
  if (chars "*") ∈ entry.useragents then
    match rp.defaultEntry with
    | none => { rp with defaultEntry := some entry }
    | some _ => rp
  else { rp with entries := rp.entries ++ [entry] }

/-- One iteration of the `RobotFileParser.parse` line loop; the accumulator is
`(parser, current entry, state)` with states 0/1/2 as in the source. -/
def parseRobotsLine (acc : RobotFileParser × REntry × Nat) (line : Str) :
    RobotFileParser × REntry × Nat :=
  let rp := acc.1
  let entry := acc.2.1
  let state := acc.2.2
  let blankStep :=
    if line = [] then
      if state = 1 then (rp, (⟨[], []⟩ : REntry), 0)
      else if state = 2 then (addEntry rp entry, (⟨[], []⟩ : REntry), 0)
      else (rp, entry, state)
    else (rp, entry, state)
  let rp := blankStep.1
  let entry := blankStep.2.1
  let state := blankStep.2.2
  let line := match splitFirst '#' line with
    | some p => p.1
    | none => line
  let line := trim line
  if line = [] then (rp, entry, state)
  else match splitFirst ':' line with
    | none => (rp, entry, state)
    | some kv =>
      let key := lowerStr (trim kv.1)
      let val := unquote (trim kv.2)
      if key = chars "user-agent" then
        let st := if state = 2 then (addEntry rp entry, (⟨[], []⟩ : REntry)) else (rp, entry)
        (st.1, { st.2 with useragents := st.2.useragents ++ [val] }, 1)
      else if key = chars "disallow" then
        if state ≠ 0 then
          (rp, { entry with rulelines := entry.rulelines ++ [mkRuleLine val false] }, 2)
        else (rp, entry, state)
      else if key = chars "allow" then
        if state ≠ 0 then
          (rp, { entry with rulelines := entry.rulelines ++ [mkRuleLine val true] }, 2)
        else (rp, entry, state)
      else if key = chars "crawl-delay" then
        if state ≠ 0 then (rp, entry, 2) else (rp, entry, state)
      else if key = chars "request-rate" then
        if state ≠ 0 then (rp, entry, 2) else (rp, entry, state)
      else if key = chars "sitemap" then
        ({ rp with sitemaps := rp.sitemaps ++ [val] }, entry, state)
      else (rp, entry, state)

/-- `RobotFileParser.parse(lines)`: marks the policy as read (`modified()`),
runs the line state machine, and flushes a trailing entry. -/
def RobotFileParser.parse (rp : RobotFileParser) (lines : List Str) : RobotFileParser :=
  let acc := lines.foldl parseRobotsLine ({ rp with lastChecked := true }, (⟨[], []⟩ : REntry), 0)
  if acc.2.2 = 2 then addEntry acc.1 acc.2.1 else acc.1

/-- `RobotFileParser.can_fetch(useragent, url)`. -/
def RobotFileParser.canFetch (rp : RobotFileParser) (useragent url : Str) : Bool :=
  if rp.disallowAll then false
  else if rp.allowAll then true
  else if rp.lastChecked = false then false
  else
    let parsed := urlparse (unquote url) []
    let u := urlunparse ⟨[], [], parsed.path, parsed.params, parsed.query, parsed.fragment⟩
    let u := quote u ['/']
    let u := if u = [] then ['/'] else u
    match rp.entries.find? (fun e => e.appliesTo useragent) with
    | some e => e.allowance u
    | none =>
      match rp.defaultEntry with
      | some e => e.allowance u
      | none => true

/-! ## Embedding of src/scraper/crawler.py -/

/-- Outcome of retrieving `base + "/robots.txt"` in `_robots_allows`:
`none` models a raised transport exception, otherwise the status code and the
response body split into lines (`r.text.splitlines()`). -/
structure RobotsFetchResult where
  status : Nat
  textLines : List Str
deriving DecidableEq

/-- Lines 136–147 of crawler.py: the policy cached for an origin on first
check.  On a 200 response the document is parsed; on any other status or on an
exception the code executes `rp.disallow_all = False` — an assignment of the
field to its existing default — and caches the otherwise untouched parser. -/
def robotsPolicyOfFetch (r : Option RobotsFetchResult) : RobotFileParser :=
  match r with
  | some resp =>
    if resp.status = 200 then emptyRobots.parse resp.textLines
    else { emptyRobots with disallowAll := false }
  | none => { emptyRobots with disallowAll := false }

/-- `AsyncCrawler._robots_allows(url)` for an origin not yet in the cache
(first politeness check for that origin), parameterized by the outcome of the
robots.txt retrieval. -/
def robots_allows_uncached (robotsEnabled : Bool) (fetch : Option RobotsFetchResult)
    (userAgent url : Str) : Bool :=
  if robotsEnabled = false then true
  else (robotsPolicyOfFetch fetch).canFetch userAgent url

/-- An HTTP response as `_fetch_http` sees it: status code, `content-type`
header (empty when absent), body text, optional `content-disposition`. -/
structure HttpResponse where
  status : Nat
  contentType : Str
  text : Str
  contentDisposition : Option Str
deriving DecidableEq

/-- The content-type test on line 154 of crawler.py:
`"text/html" in ct or ct.startswith("application/xhtml")` on the lowercased
header value. -/
def isHtmlContentType (ct : Str) : Bool :=
  let l := lowerStr ct
  isSubstr (chars "text/html") l || (chars "application/xhtml").isPrefixOf l

/-- `AsyncCrawler._fetch_http(url)`, parameterized by the transport outcome:
`none` models a raised exception (connection error, timeout), which the
`except` clause converts to `None`; any non-200 or non-HTML response also
yields `None`. -/
def fetchHttpStep (result : Option HttpResponse) : Option (Str × Option Str) :=
  match result with
  | none => none
  | some r =>
    if r.status = 200 ∧ isHtmlContentType r.contentType = true
    then some (r.text, r.contentDisposition)
    else none

/-- `CrawlTask` from crawler.py. -/
structure CrawlTask where
  url : Str
  depth : Nat
deriving DecidableEq

inductive RenderMode where
  | auto
  | always
  | never
deriving DecidableEq

/-- The `AsyncCrawler` configuration fields the modelled operations read. -/
structure CrawlConfig where
  allowedDomains : List Str
  maxPages : Nat
  maxDepth : Nat
  renderMode : RenderMode
deriving DecidableEq

/-- External collaborators of the crawl loop, modelled as oracles: the robots
gate outcome per address (C1 studies its internals separately), the composed
transport+`_fetch_http` outcome, the `should_render_heuristic` collaborator,
the Playwright `render_content` outcome (`none` = raised), and the extractor
collaborators `extract_links` / `extract_pagination_next_links`
(html → page url → discovered hrefs). -/
structure CrawlOracle where
  robotsAllowed : Str → Bool
  fetchHttp : Str → Option (Str × Option Str)
  shouldRender : Str → Bool
  render : Str → Option Str
  links : Str → Str → List Str
  nextLinks : Str → Str → List Str

/-- The mutable crawl state of `AsyncCrawler`, plus ghost history fields:
`records` logs `append_jsonl` calls, `fetchLog` logs fetch attempts, and
`pushedLog` logs every `queue.put` (each push appends, including duplicates),
so that "enqueued at most once" is `pushedLog.Nodup`. -/
structure CrawlState where
  queue : List CrawlTask
  enqueued : List Str
  visited : List Str
  pagesProcessed : Nat
  records : List Str
  fetchLog : List Str
  pushedLog : List Str
deriving DecidableEq

def initState : CrawlState := ⟨[], [], [], 0, [], [], []⟩

/-- One iteration of the link loop in `_process_page` (lines 205–214):
normalize, skip if already enqueued or visited, skip if outside the domain
allowlist, otherwise push a task at depth `next_depth = 1` and mark the
address enqueued.  Under cooperative scheduling this loop is atomic: its only
`await` is `queue.put` on an unbounded queue, which never suspends. -/
def enqueueStep (cfg : CrawlConfig) (pageUrl : Str) (s : CrawlState) (href : Str) :
    CrawlState :=
  match normalize_url pageUrl href with
  | none => s
  | some norm =>
    if norm ∈ s.enqueued ∨ norm ∈ s.visited then s
    else if ¬ is_allowed_domain norm cfg.allowedDomains then s
    else { s with queue := s.queue ++ [⟨norm, 1⟩],
                  enqueued := List.insert norm s.enqueued,
                  pushedLog := s.pushedLog ++ [norm] }

/-- `AsyncCrawler._process_page` restricted to the modelled state: append the
page record, then run the link loop over `links + next_links`.  (Saving the
raw document and downloading images touch only external storage.) -/
def processPage (cfg : CrawlConfig) (o : CrawlOracle) (s : CrawlState)
    (url html : Str) : CrawlState :=
  (o.links html url ++ o.nextLinks html url).foldl (enqueueStep cfg url)
    { s with records := s.records ++ [url] }

/-- The fetch/render pipeline of `_handle_task` (lines 238–257): the raw
fetch result, the render decision (`always`/`never`/`auto` with the emptiness
or heuristic test), and the fallback-preserving render attempt.  Returns the
final document content (`none` = no content). -/
def fetchRenderHtml (cfg : CrawlConfig) (o : CrawlOracle) (url : Str) : Option Str :=
  let html0 := (o.fetchHttp url).map Prod.fst
  let needsRender :=
    match cfg.renderMode with
    | RenderMode.always => true
    | RenderMode.never => false
    | RenderMode.auto =>
      match html0 with
      | none => true
      | some h => (h == []) || o.shouldRender h
  if needsRender = true ∧ cfg.renderMode ≠ RenderMode.never then
    match o.render url with
    | some rendered => if rendered ≠ [] then some rendered else html0
    | none => html0
  else html0

/-- The state change common to all post-guard outcomes of `_handle_task`:
the address is marked visited (line 228) and a fetch is attempted (line 238,
recorded in the ghost `fetchLog`). -/
def markFetched (s : CrawlState) (url : Str) : CrawlState :=
  { s with visited := List.insert url s.visited, fetchLog := s.fetchLog ++ [url] }

/-- `pages_processed += 1` (line 260). -/
def bumpPages (s : CrawlState) : CrawlState :=
  { s with pagesProcessed := s.pagesProcessed + 1 }

/-- `AsyncCrawler._handle_task`, with each guard in source order (lines
216–226), then the visited mark, the fetch/render pipeline and, when content
was obtained, `_process_page` plus the counter increment (lines 259–260). -/
def handleTask (cfg : CrawlConfig) (o : CrawlOracle) (s : CrawlState)
    (t : CrawlTask) : CrawlState :=
  if cfg.maxPages ≤ s.pagesProcessed then s
  else if t.url ∈ s.visited then s
  else if cfg.maxDepth < t.depth then s
  else if ¬ is_allowed_domain t.url cfg.allowedDomains then s
  else if ¬ o.robotsAllowed t.url then s
  else
    match fetchRenderHtml cfg o t.url with
    | none => markFetched s t.url
    | some html =>
      if html = [] then markFetched s t.url
      else bumpPages (processPage cfg o (markFetched s t.url) t.url html)

/-- One iteration of the seed loop of `AsyncCrawler.run` (lines 266–268):
the seed is marked enqueued (a set add) and pushed at depth 0 — with no
membership check. -/
def seedStep (s : CrawlState) (u : Str) : CrawlState :=
  { s with enqueued := List.insert u s.enqueued,
           queue := s.queue ++ [⟨u, 0⟩],
           pushedLog := s.pushedLog ++ [u] }

/-- The seed loop of `AsyncCrawler.run` (lines 266–268). -/
def seedAll (s : CrawlState) (urls : List Str) : CrawlState :=
  urls.foldl seedStep s

/-- A crawl execution: handling any sequence of tasks after seeding.  The
tasks actually handled by `run` are those popped from the queue; quantifying
over arbitrary task sequences only enlarges the behaviour set. -/
def execTrace (cfg : CrawlConfig) (o : CrawlOracle) (s : CrawlState)
    (ts : List CrawlTask) : CrawlState :=
  ts.foldl (handleTask cfg o) s

/-! ## Interleaved worker-pool model for the page budget (claim C3)

`run` starts `num_workers ≥ 2` concurrent workers.  `_handle_task` checks the
budget (line 217) and increments `pages_processed` (line 260), with genuine
suspension points in between (the robots retrieval awaits `client.get` at
line 140, the fetch awaits `client.get` at line 152).  Each worker is
therefore modelled by two atomic phases: `dequeue` — pass the line-217 guard
and start the fetch — and `complete` — finish the in-flight work, producing a
page (incrementing the counter) or not. -/

inductive WorkerPhase where
  | idle : WorkerPhase
  | inflight : Bool → WorkerPhase
deriving DecidableEq

structure PoolState where
  pages : Nat
  workers : List WorkerPhase
deriving DecidableEq

def initPool (w : Nat) : PoolState := ⟨0, List.replicate w WorkerPhase.idle⟩

def inflightCount (ws : List WorkerPhase) : Nat :=
  ws.countP (fun p => p != WorkerPhase.idle)

inductive PoolStep (maxPages : Nat) : PoolState → PoolState → Prop where
  | dequeue (s : PoolState) (i : Nat) (b : Bool)
      (hw : s.workers.get? i = some WorkerPhase.idle)
      (hb : s.pages < maxPages) :
      PoolStep maxPages s ⟨s.pages, s.workers.set i (WorkerPhase.inflight b)⟩
  | complete (s : PoolState) (i : Nat) (b : Bool)
      (hw : s.workers.get? i = some (WorkerPhase.inflight b)) :
      PoolStep maxPages s
        ⟨s.pages + (if b then 1 else 0), s.workers.set i WorkerPhase.idle⟩

inductive PoolReach (maxPages : Nat) : PoolState → PoolState → Prop where
  | refl (s : PoolState) : PoolReach maxPages s s
  | step (s t u : PoolState) : PoolReach maxPages s t → PoolStep maxPages t u →
      PoolReach maxPages s u

/-! ## Concrete instances used by witnesses -/

/-- A trivial oracle: robots always allows, fetches fail, no rendering,
no links. -/
def oracleNone : CrawlOracle :=
  ⟨fun _ => true, fun _ => none, fun _ => false, fun _ => none,
   fun _ _ => [], fun _ _ => []⟩

/-- An oracle whose fetch succeeds with a fixed page containing one outbound
link to `http://x.com/b`. -/
def oracleOneLink : CrawlOracle :=
  ⟨fun _ => true, fun _ => some (chars "<html>page</html>", none),
   fun _ => false, fun _ => none,
   fun _ _ => [chars "http://x.com/b"], fun _ _ => []⟩

def cfgEx : CrawlConfig := ⟨[], 10, 5, RenderMode.never⟩

def cfgZero : CrawlConfig := ⟨[], 0, 5, RenderMode.never⟩

/-- The at-most-once-enqueue invariant: the push history has no duplicates,
and every pushed address has been recorded in the enqueued set. -/
def C2Inv (s : CrawlState) : Prop :=
  s.pushedLog.Nodup ∧ ∀ a ∈ s.pushedLog, a ∈ s.enqueued

/-- Invariant of the worker-pool model: worker count is fixed, and the pages
counter plus the in-flight count stays under `maxPages - 1 + w`. -/
def PoolInv (maxPages w : Nat) (s : PoolState) : Prop :=
  s.workers.length = w ∧ s.pages + inflightCount s.workers ≤ maxPages - 1 + w

/-! ## Theorems -/

/-- C6: `normalize_url` resolves the reference against the base, removes the
fragment, and strips the tracking query parameter:
`normalize("http://x.com/a", "/b?utm_source=x#frag") = "http://x.com/b"`. -/
theorem c6_normalize_example :
    normalize_url (chars "http://x.com/a") (chars "/b?utm_source=x#frag")
      = some (chars "http://x.com/b") := by decide

/-- C8: `is_allowed_domain` accepts an exact allowlisted host and a subdomain
of an allowlisted domain, and rejects an unrelated host. -/
theorem c8_allowed_domain_examples :
    is_allowed_domain (chars "http://sub.example.com/p") [chars "example.com"] = true
    ∧ is_allowed_domain (chars "http://evil.com/p") [chars "example.com"] = false
    ∧ is_allowed_domain (chars "http://example.com/p") [chars "example.com"] = true := by
  decide

/-- C10: with an empty allowlist `is_allowed_domain` accepts every URL, and
the allowlist only restricts when non-empty (a non-empty allowlist can
reject). -/
theorem c10_empty_allowlist_permissive :
    (∀ url : Str, is_allowed_domain url [] = true)
    ∧ is_allowed_domain (chars "http://evil.com/p") [chars "example.com"] = false := by
  constructor
  · intro url
    rfl
  · decide

/-- C9: the fetch step yields document content exactly for a delivered
response with status 200 and an HTML content type; every other outcome
(transport error modelled as `none`, wrong status, non-HTML type) yields no
content, and the function is total (no exception escapes). -/
theorem c9_fetch_only_200_html :
    ∀ result : Option HttpResponse,
      (fetchHttpStep result).isSome = true ↔
        ∃ r, result = some r ∧ r.status = 200 ∧ isHtmlContentType r.contentType = true := by
  intro result
  cases result with
  | none => simp [fetchHttpStep]
  | some r =>
    by_cases h : r.status = 200 ∧ isHtmlContentType r.contentType = true
    · simp [fetchHttpStep, h]
    · simp only [fetchHttpStep, if_neg h, Option.isSome_none]
      simp [h]

/-- C1 (code bug): when the robots.txt retrieval for an origin fails (raises)
or returns a non-200 status, the cached policy answers `false` for every
address of that origin — the crawler's `rp.disallow_all = False` assignment
leaves the parser in its never-read state, in which `can_fetch` refuses all
URLs, so the gate fails closed rather than open as the claim states. -/
theorem c1_robots_failure_blocks_all (fetch : Option RobotsFetchResult)
    (hfail : fetch = none ∨ ∃ r, fetch = some r ∧ r.status ≠ 200)
    (ua url : Str) :
    robots_allows_uncached true fetch ua url = false := by
  have hpol : robotsPolicyOfFetch fetch = { emptyRobots with disallowAll := false } := by
    rcases hfail with h | ⟨r, hr, hs⟩
    · rw [h]
      rfl
    · rw [hr]
      simp [robotsPolicyOfFetch, hs]
  simp [robots_allows_uncached, hpol, RobotFileParser.canFetch, emptyRobots]

/-- Witness for C1 at a concrete failing fetch (status 404) and address. -/
theorem c1_witness :
    ((some (⟨404, []⟩ : RobotsFetchResult) = none
      ∨ ∃ r, some (⟨404, []⟩ : RobotsFetchResult) = some r ∧ r.status ≠ 200))
    ∧ robots_allows_uncached true (some ⟨404, []⟩) (chars "UA")
        (chars "http://x.com/page") = false :=
  ⟨Or.inr ⟨⟨404, []⟩, rfl, by decide⟩,
   c1_robots_failure_blocks_all (some ⟨404, []⟩)
     (Or.inr ⟨⟨404, []⟩, rfl, by decide⟩) (chars "UA") (chars "http://x.com/page")⟩

/-- C4: a task whose depth exceeds `max_depth` is discarded before any state
change: handling it leaves the crawl state unchanged (nothing fetched, nothing
marked visited, no record, no enqueue, no counter change). -/
theorem c4_deep_task_noop (cfg : CrawlConfig) (o : CrawlOracle) (s : CrawlState)
    (t : CrawlTask) (hd : cfg.maxDepth < t.depth) :
    handleTask cfg o s t = s := by
  unfold handleTask
  by_cases h1 : cfg.maxPages ≤ s.pagesProcessed
  · simp [h1]
  · by_cases h2 : t.url ∈ s.visited
    · simp [h1, h2]
    · simp [h1, h2, hd]

/-- Witness for C4: a depth-6 task against the depth-5 configuration. -/
theorem c4_witness :
    cfgEx.maxDepth < 6
    ∧ handleTask cfgEx oracleOneLink initState ⟨chars "http://x.com/a", 6⟩ = initState :=
  ⟨by decide,
   c4_deep_task_noop cfgEx oracleOneLink initState ⟨chars "http://x.com/a", 6⟩ (by decide)⟩

/-- Any task present after one link-loop iteration was already queued or was
pushed with depth 1. -/
theorem enqueueStep_queue_mem (cfg : CrawlConfig) (pageUrl : Str) (s : CrawlState)
    (href : Str) (t' : CrawlTask)
    (h : t' ∈ (enqueueStep cfg pageUrl s href).queue) :
    t' ∈ s.queue ∨ t'.depth = 1 := by
  unfold enqueueStep at h
  split at h
  · exact Or.inl h
  · rename_i norm hnorm
    split at h
    · exact Or.inl h
    · split at h
      · exact Or.inl h
      · replace h : t' ∈ s.queue ++ [(⟨norm, 1⟩ : CrawlTask)] := h
        rcases List.mem_append.mp h with h | h
        · exact Or.inl h
        · rw [List.mem_singleton] at h
          subst h
          exact Or.inr rfl

/-- The link loop of `_process_page` only adds depth-1 tasks. -/
theorem foldl_enqueue_queue_mem (cfg : CrawlConfig) (pageUrl : Str) :
    ∀ (hrefs : List Str) (s : CrawlState) (t' : CrawlTask),
      t' ∈ (hrefs.foldl (enqueueStep cfg pageUrl) s).queue →
      t' ∈ s.queue ∨ t'.depth = 1 := by
  intro hrefs
  induction hrefs with
  | nil =>
    intro s t' h
    exact Or.inl h
  | cons a as ih =>
    intro s t' h
    rcases ih (enqueueStep cfg pageUrl s a) t' h with h' | h'
    · exact enqueueStep_queue_mem cfg pageUrl s a t' h'
    · exact Or.inr h'

/-- `_process_page` only adds depth-1 tasks to the frontier. -/
theorem processPage_queue_mem (cfg : CrawlConfig) (o : CrawlOracle) (s : CrawlState)
    (url html : Str) (t' : CrawlTask)
    (h : t' ∈ (processPage cfg o s url html).queue) :
    t' ∈ s.queue ∨ t'.depth = 1 := by
  unfold processPage at h
  rcases foldl_enqueue_queue_mem cfg url _ _ t' h with h' | h'
  · exact Or.inl h'
  · exact Or.inr h'

/-- C5: every task pushed while handling a task — whatever the handled task's
depth — has depth 1 (`next_depth = 1` in `_process_page`), and every task
pushed by the seed loop of `run` has depth 0. -/
theorem c5_new_links_depth_one :
    (∀ (cfg : CrawlConfig) (o : CrawlOracle) (s : CrawlState) (t : CrawlTask)
        (t' : CrawlTask), t' ∈ (handleTask cfg o s t).queue →
        t' ∈ s.queue ∨ t'.depth = 1)
    ∧ (∀ (s : CrawlState) (urls : List Str) (t' : CrawlTask),
        t' ∈ (seedAll s urls).queue → t' ∈ s.queue ∨ t'.depth = 0) := by
  constructor
  · intro cfg o s t t' h
    unfold handleTask at h
    split at h
    · exact Or.inl h
    · split at h
      · exact Or.inl h
      · split at h
        · exact Or.inl h
        · split at h
          · exact Or.inl h
          · split at h
            · exact Or.inl h
            · split at h
              · exact Or.inl h
              · rename_i html hne
                split at h
                · exact Or.inl h
                · rcases processPage_queue_mem cfg o (markFetched s t.url) t.url html t' h
                    with h' | h'
                  · exact Or.inl h'
                  · exact Or.inr h'
  · intro s urls
    induction urls generalizing s with
    | nil =>
      intro t' h
      exact Or.inl h
    | cons u us ih =>
      intro t' h
      rcases ih _ t' h with h' | h'
      · simp only [seedStep, List.mem_append, List.mem_singleton] at h'
        rcases h' with h' | h'
        · exact Or.inl h'
        · subst h'
          exact Or.inr rfl
      · exact Or.inr h'

/-- Witness for C5: a concrete handled task pushes its discovered link at
depth 1, and a concrete seed is pushed at depth 0. -/
theorem c5_witness :
    ((⟨chars "http://x.com/b", 1⟩ : CrawlTask)
        ∈ (handleTask cfgEx oracleOneLink initState ⟨chars "http://x.com/a", 0⟩).queue
      ∧ ((⟨chars "http://x.com/b", 1⟩ : CrawlTask) ∈ initState.queue
          ∨ (⟨chars "http://x.com/b", 1⟩ : CrawlTask).depth = 1))
    ∧ ((⟨chars "s", 0⟩ : CrawlTask) ∈ (seedAll initState [chars "s"]).queue
      ∧ ((⟨chars "s", 0⟩ : CrawlTask) ∈ initState.queue
          ∨ (⟨chars "s", 0⟩ : CrawlTask).depth = 0)) :=
  ⟨⟨by decide,
    c5_new_links_depth_one.1 cfgEx oracleOneLink initState ⟨chars "http://x.com/a", 0⟩
      ⟨chars "http://x.com/b", 1⟩ (by decide)⟩,
   ⟨by decide,
    c5_new_links_depth_one.2 initState [chars "s"] ⟨chars "s", 0⟩ (by decide)⟩⟩

/-- One link-loop iteration preserves the at-most-once-enqueue invariant:
a push happens only under the `norm in enqueued` guard, and the pushed address
is immediately added to the enqueued set. -/
theorem enqueueStep_C2Inv (cfg : CrawlConfig) (pageUrl : Str) (s : CrawlState)
    (href : Str) (h : C2Inv s) : C2Inv (enqueueStep cfg pageUrl s href) := by
  unfold enqueueStep
  split
  · exact h
  · rename_i norm hnorm
    split
    · exact h
    · split
      · exact h
      · rename_i hmem hall
        have hne : norm ∉ s.enqueued := fun hc => hmem (Or.inl hc)
        have hnp : norm ∉ s.pushedLog := fun hc => hne (h.2 norm hc)
        constructor
        · simpa [List.nodup_append] using ⟨h.1, hnp⟩
        · intro a ha
          rcases List.mem_append.mp ha with ha | ha
          · exact List.mem_insert_iff.mpr (Or.inr (h.2 a ha))
          · rw [List.mem_singleton] at ha
            subst ha
            exact List.mem_insert_iff.mpr (Or.inl rfl)

/-- The whole link loop preserves the invariant. -/
theorem foldl_enqueue_C2Inv (cfg : CrawlConfig) (pageUrl : Str) :
    ∀ (hrefs : List Str) (s : CrawlState), C2Inv s →
      C2Inv (hrefs.foldl (enqueueStep cfg pageUrl) s) := by
  intro hrefs
  induction hrefs with
  | nil => intro s h; exact h
  | cons a as ih =>
    intro s h
    exact ih _ (enqueueStep_C2Inv cfg pageUrl s a h)

/-- `C2Inv` only mentions `pushedLog` and `enqueued`, so the record/visited/
fetch bookkeeping preserves it; `_process_page` then preserves it through the
link loop. -/
theorem processPage_C2Inv (cfg : CrawlConfig) (o : CrawlOracle) (s : CrawlState)
    (url html : Str) (h : C2Inv s) : C2Inv (processPage cfg o s url html) := by
  unfold processPage
  exact foldl_enqueue_C2Inv cfg url _ _ h

/-- Handling any task preserves the at-most-once-enqueue invariant. -/
theorem handleTask_C2Inv (cfg : CrawlConfig) (o : CrawlOracle) (s : CrawlState)
    (t : CrawlTask) (h : C2Inv s) : C2Inv (handleTask cfg o s t) := by
  unfold handleTask
  split
  · exact h
  · split
    · exact h
    · split
      · exact h
      · split
        · exact h
        · split
          · exact h
          · have hm : C2Inv (markFetched s t.url) := h
            split
            · exact hm
            · rename_i html hhtml
              split
              · exact hm
              · exact processPage_C2Inv cfg o (markFetched s t.url) t.url html hm

/-- Any task sequence preserves the invariant. -/
theorem execTrace_C2Inv (cfg : CrawlConfig) (o : CrawlOracle) :
    ∀ (ts : List CrawlTask) (s : CrawlState), C2Inv s → C2Inv (execTrace cfg o s ts) := by
  intro ts
  induction ts with
  | nil => intro s h; exact h
  | cons t ts ih =>
    intro s h
    exact ih _ (handleTask_C2Inv cfg o s t h)

/-- The seed loop establishes the invariant when the seeds are distinct and
fresh: each seed is pushed exactly once and recorded as enqueued. -/
theorem seedAll_C2Inv :
    ∀ (urls : List Str) (s : CrawlState), C2Inv s →
      (∀ u ∈ urls, u ∉ s.pushedLog) → urls.Nodup → C2Inv (seedAll s urls) := by
  intro urls
  induction urls with
  | nil => intro s h _ _; exact h
  | cons u us ih =>
    intro s h hfresh hnd
    have hup : u ∉ s.pushedLog := hfresh u (List.mem_cons_self u us)
    have hstep : C2Inv (seedStep s u) := by
      constructor
      · simpa [seedStep, List.nodup_append] using ⟨h.1, hup⟩
      · intro a ha
        rcases List.mem_append.mp ha with ha | ha
        · exact List.mem_insert_iff.mpr (Or.inr (h.2 a ha))
        · rw [List.mem_singleton] at ha
          subst ha
          exact List.mem_insert_iff.mpr (Or.inl rfl)
    have hfresh2 : ∀ v ∈ us, v ∉ (seedStep s u).pushedLog := by
      intro v hv hvc
      rcases List.mem_append.mp hvc with hvc | hvc
      · exact hfresh v (List.mem_cons_of_mem u hv) hvc
      · rw [List.mem_singleton] at hvc
        subst hvc
        exact (List.nodup_cons.mp hnd).1 hv
    exact ih _ hstep hfresh2 (List.nodup_cons.mp hnd).2

/-- C2 counterexample: the seed loop of `run` pushes without checking the
EnqueuedSet, so the duplicate seed list `["a", "a"]` places the address `"a"`
on the frontier twice — the claim's at-most-once property fails as stated. -/
theorem c2_counterexample :
    (seedAll initState [chars "a", chars "a"]).queue
        = [⟨chars "a", 0⟩, ⟨chars "a", 0⟩]
    ∧ ¬ (seedAll initState [chars "a", chars "a"]).pushedLog.Nodup := by
  decide

/-- C2 (amended): discovered links are pushed only when absent from the
EnqueuedSet and are recorded there when pushed, while seeds are pushed
unconditionally; consequently, for every crawl execution whose seed list has
no duplicates, every address is placed on the frontier at most once
(the push history `pushedLog` has no duplicates). -/
theorem c2_amended_at_most_once (cfg : CrawlConfig) (o : CrawlOracle)
    (seeds : List Str) (hs : seeds.Nodup) (ts : List CrawlTask) :
    (execTrace cfg o (seedAll initState seeds) ts).pushedLog.Nodup := by
  have h0 : C2Inv initState := by
    constructor
    · exact List.nodup_nil
    · intro a ha
      simp [initState] at ha
  have h1 : C2Inv (seedAll initState seeds) :=
    seedAll_C2Inv seeds initState h0 (by intro u _ hc; simp [initState] at hc) hs
  exact (execTrace_C2Inv cfg o ts _ h1).1

/-- Witness for C2 (amended) on a concrete distinct seed list and task. -/
theorem c2_witness :
    ([chars "a"] : List Str).Nodup
    ∧ (execTrace cfgEx oracleNone (seedAll initState [chars "a"])
        [⟨chars "a", 0⟩]).pushedLog.Nodup :=
  ⟨by decide,
   c2_amended_at_most_once cfgEx oracleNone [chars "a"] (by decide) [⟨chars "a", 0⟩]⟩

/-- Updating a known position shifts `countP` by the predicate values of the
old and new elements. -/
theorem countP_set_get? (p : WorkerPhase → Bool) :
    ∀ (ws : List WorkerPhase) (i : Nat) (a v : WorkerPhase),
      ws.get? i = some a →
      (ws.set i v).countP p + (if p a then 1 else 0)
        = ws.countP p + (if p v then 1 else 0) := by
  intro ws
  induction ws with
  | nil => intro i a v h; simp at h
  | cons w rest ih =>
    intro i a v h
    cases i with
    | zero =>
      simp only [List.get?] at h
      injection h with h
      subst h
      simp [List.countP_cons]
      omega
    | succ n =>
      simp only [List.get?] at h
      have h2 := ih n a v h
      simp only [List.set, List.countP_cons]
      omega

/-- A position holding an element that fails the predicate witnesses that the
count is strictly below the length. -/
theorem countP_lt_length_of_get?_false (p : WorkerPhase → Bool) :
    ∀ (ws : List WorkerPhase) (i : Nat) (a : WorkerPhase),
      ws.get? i = some a → p a = false → ws.countP p < ws.length := by
  intro ws
  induction ws with
  | nil => intro i a h _; simp at h
  | cons w rest ih =>
    intro i a h hp
    cases i with
    | zero =>
      simp only [List.get?] at h
      injection h with h
      subst h
      have hle : List.countP p rest ≤ rest.length := List.countP_le_length p
      simp only [List.countP_cons, hp, List.length_cons]
      simp
      omega
    | succ n =>
      simp only [List.get?] at h
      have h2 := ih n a h hp
      simp only [List.countP_cons, List.length_cons]
      have hb : (if p w = true then 1 else 0) ≤ 1 := by
        split
        · omega
        · omega
      omega

/-- Each worker-pool step preserves `PoolInv`: a `dequeue` needs the budget
guard and a free worker, a `complete` trades an in-flight worker for at most
one counted page. -/
theorem poolStep_PoolInv (maxPages w : Nat) (s t : PoolState)
    (hstep : PoolStep maxPages s t) (h : PoolInv maxPages w s) :
    PoolInv maxPages w t := by
  cases hstep with
  | dequeue i b hw hb =>
    have hlen : (s.workers.set i (WorkerPhase.inflight b)).length = s.workers.length :=
      List.length_set s.workers i (WorkerPhase.inflight b)
    have hcnt := countP_set_get? (fun p => p != WorkerPhase.idle) s.workers i
      WorkerPhase.idle (WorkerPhase.inflight b) hw
    have hlt := countP_lt_length_of_get?_false (fun p => p != WorkerPhase.idle)
      s.workers i WorkerPhase.idle hw (by decide)
    constructor
    · rw [hlen]
      exact h.1
    · have h2 := h.2
      have h1 := h.1
      simp only [PoolInv, inflightCount] at h2 ⊢
      simp at hcnt
      omega
  | complete i b hw =>
    have hlen : (s.workers.set i WorkerPhase.idle).length = s.workers.length :=
      List.length_set s.workers i WorkerPhase.idle
    have hcnt := countP_set_get? (fun p => p != WorkerPhase.idle) s.workers i
      (WorkerPhase.inflight b) WorkerPhase.idle hw
    constructor
    · rw [hlen]
      exact h.1
    · have h2 := h.2
      simp only [PoolInv, inflightCount] at h2 ⊢
      simp at hcnt
      cases b
      · simp
        omega
      · simp
        omega

/-- `PoolInv` holds in every reachable pool state. -/
theorem poolReach_PoolInv (maxPages w : Nat) (s t : PoolState)
    (h : PoolReach maxPages s t) (h0 : PoolInv maxPages w s) :
    PoolInv maxPages w t := by
  induction h with
  | refl => exact h0
  | step t u hr hstep ih => exact poolStep_PoolInv maxPages w t u hstep ih

/-- `enqueueStep` never changes the page counter. -/
theorem enqueueStep_pages (cfg : CrawlConfig) (pageUrl : Str) (s : CrawlState)
    (href : Str) :
    (enqueueStep cfg pageUrl s href).pagesProcessed = s.pagesProcessed := by
  unfold enqueueStep
  split
  · rfl
  · split
    · rfl
    · split
      · rfl
      · rfl

/-- A link-loop fold never changes the page counter. -/
theorem foldl_enqueue_pages (cfg : CrawlConfig) (pageUrl : Str) :
    ∀ (hrefs : List Str) (s : CrawlState),
      (hrefs.foldl (enqueueStep cfg pageUrl) s).pagesProcessed = s.pagesProcessed := by
  intro hrefs
  induction hrefs with
  | nil => intro s; rfl
  | cons a as ih =>
    intro s
    simp only [List.foldl_cons]
    rw [ih (enqueueStep cfg pageUrl s a)]
    rw [enqueueStep_pages]

/-- `_process_page` never changes the page counter. -/
theorem processPage_pages (cfg : CrawlConfig) (o : CrawlOracle) (s : CrawlState)
    (url html : Str) :
    (processPage cfg o s url html).pagesProcessed = s.pagesProcessed := by
  unfold processPage
  rw [foldl_enqueue_pages]

/-- Handling one task keeps the page counter within the budget. -/
theorem handleTask_pages_le (cfg : CrawlConfig) (o : CrawlOracle) (s : CrawlState)
    (t : CrawlTask) (h : s.pagesProcessed ≤ cfg.maxPages) :
    (handleTask cfg o s t).pagesProcessed ≤ cfg.maxPages := by
  unfold handleTask
  split
  · exact h
  · rename_i hlt
    split
    · exact h
    · split
      · exact h
      · split
        · exact h
        · split
          · exact h
          · split
            · exact h
            · split
              · exact h
              · rename_i html hmatch hne
                show (processPage cfg o (markFetched s t.url) t.url html).pagesProcessed + 1
                    ≤ cfg.maxPages
                rw [processPage_pages]
                show s.pagesProcessed + 1 ≤ cfg.maxPages
                omega

/-- Seeding does not change the page counter. -/
theorem seedAll_pages (urls : List Str) :
    ∀ s : CrawlState, (seedAll s urls).pagesProcessed = s.pagesProcessed := by
  induction urls with
  | nil => intro s; rfl
  | cons u us ih =>
    intro s
    show (seedAll (seedStep s u) us).pagesProcessed = s.pagesProcessed
    rw [ih (seedStep s u)]
    rfl

/-- Any sequential execution keeps the counter within the budget. -/
theorem execTrace_pages_le (cfg : CrawlConfig) (o : CrawlOracle) :
    ∀ (ts : List CrawlTask) (s : CrawlState), s.pagesProcessed ≤ cfg.maxPages →
      (execTrace cfg o s ts).pagesProcessed ≤ cfg.maxPages := by
  intro ts
  induction ts with
  | nil => intro s h; exact h
  | cons t ts ih =>
    intro s h
    exact ih _ (handleTask_pages_le cfg o s t h)

/-- C3 counterexample: with budget `max_pages = 1` and two workers, both
workers pass the line-217 budget check while the counter is still 0 (their
increments happen only after the awaited fetches complete), so the reachable
state with `pages_processed = 2` exceeds the budget — the claim's "never
exceeds" fails for the concurrent worker pool. -/
theorem c3_counterexample :
    PoolReach 1 (initPool 2) ⟨2, [WorkerPhase.idle, WorkerPhase.idle]⟩ ∧ ¬ (2 ≤ 1) := by
  constructor
  · have s0 : PoolReach 1 (initPool 2) (initPool 2) := PoolReach.refl _
    have st1 : PoolStep 1 (initPool 2)
        ⟨0, [WorkerPhase.inflight true, WorkerPhase.idle]⟩ :=
      PoolStep.dequeue (initPool 2) 0 true (by decide) (by decide)
    have r1 := PoolReach.step _ _ _ s0 st1
    have st2 : PoolStep 1 (⟨0, [WorkerPhase.inflight true, WorkerPhase.idle]⟩ : PoolState)
        ⟨0, [WorkerPhase.inflight true, WorkerPhase.inflight true]⟩ :=
      PoolStep.dequeue _ 1 true (by decide) (by decide)
    have r2 := PoolReach.step _ _ _ r1 st2
    have st3 : PoolStep 1
        (⟨0, [WorkerPhase.inflight true, WorkerPhase.inflight true]⟩ : PoolState)
        ⟨1, [WorkerPhase.idle, WorkerPhase.inflight true]⟩ :=
      PoolStep.complete _ 0 true (by decide)
    have r3 := PoolReach.step _ _ _ r2 st3
    have st4 : PoolStep 1 (⟨1, [WorkerPhase.idle, WorkerPhase.inflight true]⟩ : PoolState)
        ⟨2, [WorkerPhase.idle, WorkerPhase.idle]⟩ :=
      PoolStep.complete _ 1 true (by decide)
    exact PoolReach.step _ _ _ r3 st4
  · decide

/-- C3 (amended): (i) once the counter has reached `max_pages`, handling any
further task is a no-op; (ii) when tasks are handled atomically (sequential
model) the counter never exceeds `max_pages`; (iii) in the concurrent
worker-pool model no worker passes the budget check once the counter has
reached `max_pages`, bounding the counter in every reachable state by
`max_pages - 1 + numWorkers` (overshoot of up to numWorkers − 1). -/
theorem c3_amended_budget :
    (∀ (cfg : CrawlConfig) (o : CrawlOracle) (s : CrawlState) (t : CrawlTask),
        cfg.maxPages ≤ s.pagesProcessed → handleTask cfg o s t = s)
    ∧ (∀ (cfg : CrawlConfig) (o : CrawlOracle) (seeds : List Str) (ts : List CrawlTask),
        (execTrace cfg o (seedAll initState seeds) ts).pagesProcessed ≤ cfg.maxPages)
    ∧ (∀ (maxPages w : Nat) (s : PoolState), PoolReach maxPages (initPool w) s →
        s.pages ≤ maxPages - 1 + w) := by
  refine ⟨?_, ?_, ?_⟩
  · intro cfg o s t h
    unfold handleTask
    simp [h]
  · intro cfg o seeds ts
    apply execTrace_pages_le
    rw [seedAll_pages]
    show 0 ≤ cfg.maxPages
    omega
  · intro maxPages w s hr
    have h0 : PoolInv maxPages w (initPool w) := by
      constructor
      · exact List.length_replicate w WorkerPhase.idle
      · show (0 : Nat) + inflightCount (List.replicate w WorkerPhase.idle)
            ≤ maxPages - 1 + w
        have : inflightCount (List.replicate w WorkerPhase.idle) = 0 := by
          unfold inflightCount
          rw [List.countP_eq_zero]
          intro a ha
          rw [List.eq_of_mem_replicate ha]
          decide
        omega
    have h := poolReach_PoolInv maxPages w (initPool w) s hr h0
    have := h.2
    omega

/-- Witness for C3 (amended) at concrete inputs. -/
theorem c3_witness :
    (cfgZero.maxPages ≤ initState.pagesProcessed
      ∧ handleTask cfgZero oracleNone initState ⟨chars "a", 0⟩ = initState)
    ∧ (execTrace cfgEx oracleNone (seedAll initState [chars "a"])
        [⟨chars "a", 0⟩]).pagesProcessed ≤ cfgEx.maxPages
    ∧ (initPool 2).pages ≤ 1 - 1 + 2 :=
  ⟨⟨by decide, c3_amended_budget.1 cfgZero oracleNone initState ⟨chars "a", 0⟩ (by decide)⟩,
   c3_amended_budget.2.1 cfgEx oracleNone [chars "a"] [⟨chars "a", 0⟩],
   c3_amended_budget.2.2 1 2 (initPool 2) (PoolReach.refl _)⟩

/-- Appending query and fragment preserves a `prefix ++ separator` shape. -/
theorem addQueryFragment_shape (a : Str) (c : Char) (x : Str) (s : SplitResult) :
    ∃ r, addQueryFragment (a ++ c :: x) s = a ++ c :: r := by
  unfold addQueryFragment
  by_cases hq : s.query ≠ []
  · by_cases hf : s.fragment ≠ []
    · refine ⟨(x ++ '?' :: s.query) ++ '#' :: s.fragment, ?_⟩
      simp [hq, hf, List.append_assoc]
    · refine ⟨x ++ '?' :: s.query, ?_⟩
      simp [hq, hf, List.append_assoc]
  · by_cases hf : s.fragment ≠ []
    · refine ⟨x ++ '#' :: s.fragment, ?_⟩
      simp [hq, hf, List.append_assoc]
    · refine ⟨x, ?_⟩
      simp [hq, hf]

/-- A re-serialized URL with a nonempty scheme starts with `scheme:`. -/
theorem urlunparse_scheme_shape (p : ParseResult) (h : p.scheme ≠ []) :
    ∃ r, urlunparse p = p.scheme ++ ':' :: r := by
  unfold urlunparse urlunsplit
  dsimp only
  rw [if_pos h]
  exact addQueryFragment_shape p.scheme ':' _ _

/-- When scheme extraction succeeds, the default scheme is irrelevant. -/
theorem urlsplit_scheme_of_extract (url : Str) (pr : Str × Str)
    (hE : extractScheme (cleanUrl url) = some pr) (d : Str) :
    urlsplit url d = urlsplit url [] := by
  simp only [urlsplit, hE]

/-- A nonempty parsed scheme means scheme extraction succeeded. -/
theorem urlsplit_scheme_nonempty_extract (url : Str)
    (h : (urlsplit url []).scheme ≠ []) :
    ∃ pr, extractScheme (cleanUrl url) = some pr := by
  cases hE : extractScheme (cleanUrl url) with
  | some pr => exact ⟨pr, rfl⟩
  | none =>
    exfalso
    apply h
    simp [urlsplit, hE, cleanScheme]

/-- `urlparse` and `urlsplit` agree on the scheme component. -/
theorem urlparse_scheme_eq (url d : Str) :
    (urlparse url d).scheme = (urlsplit url d).scheme := by
  unfold urlparse
  dsimp only
  split
  · rfl
  · rfl

/-- For a URL with its own (extractable) scheme, `urlparse` ignores the
default scheme. -/
theorem urlparse_dflt_eq (url : Str) (h : (urlparse url []).scheme ≠ []) (d : Str) :
    urlparse url d = urlparse url [] := by
  rw [urlparse_scheme_eq] at h
  obtain ⟨pr, hE⟩ := urlsplit_scheme_nonempty_extract url h
  unfold urlparse
  rw [urlsplit_scheme_of_extract url pr hE d]

/-- A URL already in the canonical form produced by
`strip_fragment_and_tracking` (no fragment, already-canonical query,
re-serializes to itself) is a fixed point of it. -/
theorem strip_fixed (N : Str)
    (hfrag : (urlparse N []).fragment = [])
    (hq : stripQuery (urlparse N []).query = (urlparse N []).query)
    (hrt : urlunparse (urlparse N []) = N) :
    strip_fragment_and_tracking N = N := by
  simp only [strip_fragment_and_tracking]
  rcases hP : urlparse N [] with ⟨s, n, pa, par, q, f⟩
  rw [hP] at hfrag hq hrt
  simp only at hfrag hq
  subst hfrag
  rw [hq]
  exact hrt

/-- A case-insensitive prefix mismatch within the first part of an
appended string refutes the whole match. -/
theorem ciPrefix_take_append : ∀ (x pat y : Str),
    ciPrefix (pat.take x.length) x = false → ciPrefix pat (x ++ y) = false := by
  intro x
  induction x with
  | nil =>
    intro pat y h
    simp [ciPrefix] at h
  | cons c cs ih =>
    intro pat y h
    cases pat with
    | nil => simp [ciPrefix] at h
    | cons p ps =>
      simp only [List.length_cons, List.take_succ_cons, List.cons_append] at h ⊢
      simp only [ciPrefix] at h ⊢
      cases hpc : (p == Char.toLower c) with
      | false => simp [hpc]
      | true =>
        simp only [hpc, Bool.true_and] at h ⊢
        exact ih ps y h

/-- A URL whose (lowercase, nonempty) scheme is in `uses_netloc` is never
rejected by the `javascript:`/`mailto:`/`tel:` filter of `normalize_url`. -/
theorem badSchemeRef_netloc_scheme (sch : Str) (hs : sch ∈ usesNetloc)
    (hne : sch ≠ []) (rest : Str) :
    badSchemeRef (sch ++ ':' :: rest) = false := by
  have hfin : ∀ s2 ∈ usesNetloc, s2 ≠ [] →
      (ciPrefix ((chars "javascript:").take (s2 ++ [':']).length) (s2 ++ [':']) = false
       ∧ ciPrefix ((chars "mailto:").take (s2 ++ [':']).length) (s2 ++ [':']) = false
       ∧ ciPrefix ((chars "tel:").take (s2 ++ [':']).length) (s2 ++ [':']) = false) := by
    decide
  have h3 := hfin sch hs hne
  have hre : sch ++ ':' :: rest = (sch ++ [':']) ++ rest := by simp
  rw [hre]
  unfold badSchemeRef
  rw [ciPrefix_take_append (sch ++ [':']) (chars "javascript:") rest h3.1,
      ciPrefix_take_append (sch ++ [':']) (chars "mailto:") rest h3.2.1,
      ciPrefix_take_append (sch ++ [':']) (chars "tel:") rest h3.2.2]
  rfl

/-- C7 counterexample: `normalize_url` is not idempotent as claimed — the
canonical form of the relative reference `"w"` against base `"u/v"` is
`"u/w"`, but normalizing `"u/w"` again (against itself as base) yields
`"u/u/w"`, a different address. -/
theorem c7_counterexample :
    normalize_url (chars "u/v") (chars "w") = some (chars "u/w")
    ∧ normalize_url (chars "u/w") (chars "u/w") = some (chars "u/u/w")
    ∧ (chars "u/u/w" : Str) ≠ chars "u/w" := by
  decide

/-- C7 (amended): idempotence holds for absolute canonical forms: whenever
`normalize_url` returns `N` and `N` is a canonical absolute URL — nonempty
scheme in `uses_netloc`, nonempty authority, no fragment, a query already in
canonical (tracking-free, re-encoded) form, and `N` re-serializes to itself —
then normalizing `N` against any base (in particular `N` itself) returns `N`
unchanged.  For relative canonical forms idempotence fails (see the
counterexample). -/
theorem c7_amended_idempotent_absolute (b h N : Str)
    (hn : normalize_url b h = some N)
    (hscheme : (urlparse N []).scheme ≠ [])
    (huses : (urlparse N []).scheme ∈ usesNetloc)
    (hnet : (urlparse N []).netloc ≠ [])
    (hfrag : (urlparse N []).fragment = [])
    (hq : stripQuery (urlparse N []).query = (urlparse N []).query)
    (hrt : urlunparse (urlparse N []) = N) :
    ∀ B : Str, normalize_url B N = some N := by
  intro B
  obtain ⟨r, hshape⟩ := urlunparse_scheme_shape (urlparse N []) hscheme
  have hNs : N = (urlparse N []).scheme ++ ':' :: r := hrt.symm.trans hshape
  have hN0 : N ≠ [] := by
    rw [hNs]
    simp
  have hbad : badSchemeRef N = false := by
    rw [hNs]
    exact badSchemeRef_netloc_scheme _ huses hscheme r
  have hstrip : strip_fragment_and_tracking N = N := strip_fixed N hfrag hq hrt
  have hj : strip_fragment_and_tracking (urljoin B N) = N := by
    unfold urljoin
    by_cases hB : B = []
    · rw [if_pos hB]
      exact hstrip
    · rw [if_neg hB, if_neg hN0]
      dsimp only
      rw [urlparse_dflt_eq N hscheme (urlparse B []).scheme]
      by_cases hcase : (urlparse N []).scheme ≠ (urlparse B []).scheme
          ∨ (urlparse N []).scheme ∉ usesRelative
      · rw [if_pos hcase]
        exact hstrip
      · rw [if_neg hcase, if_pos ⟨huses, hnet⟩, hrt]
        exact hstrip
  simp only [normalize_url, if_neg hN0, hbad]
  simp [hj]

/-- Witness for C7 (amended): the canonical form `"http://x.com/b"` satisfies
all side conditions and is idempotent against itself as base. -/
theorem c7_witness :
    (normalize_url (chars "http://x.com/a") (chars "/b?utm_source=x#frag")
        = some (chars "http://x.com/b")
      ∧ (urlparse (chars "http://x.com/b") []).scheme ≠ []
      ∧ (urlparse (chars "http://x.com/b") []).scheme ∈ usesNetloc
      ∧ (urlparse (chars "http://x.com/b") []).netloc ≠ []
      ∧ (urlparse (chars "http://x.com/b") []).fragment = []
      ∧ stripQuery (urlparse (chars "http://x.com/b") []).query
          = (urlparse (chars "http://x.com/b") []).query
      ∧ urlunparse (urlparse (chars "http://x.com/b") []) = chars "http://x.com/b")
    ∧ normalize_url (chars "http://x.com/b") (chars "http://x.com/b")
        = some (chars "http://x.com/b") :=
  ⟨⟨by decide, by decide, by decide, by decide, by decide, by decide, by decide⟩,
   c7_amended_idempotent_absolute (chars "http://x.com/a")
     (chars "/b?utm_source=x#frag") (chars "http://x.com/b") (by decide) (by decide)
     (by decide) (by decide) (by decide) (by decide) (by decide)
     (chars "http://x.com/b")⟩
